import Mathlib

/-!
Shallow embedding of the dreamscene4d binary-format pipeline:
`convert_ply_to_splat.py` (single-frame splat packer) and
`render/pack_deltas.py` (multi-frame delta packer).

Raw PLY field values are float32; we model them as exact rationals (ℚ).
The transcendental steps of the decode (`np.exp`, the logistic sigmoid,
`np.linalg.norm`'s square root) are modelled over ℝ with the exact
real functions, which is the idealisation the specification itself uses
("within float32 rounding").
-/

/-- `SH_C0 = 0.282095`, the fixed spherical-harmonics degree-0 basis constant
from both source files. -/
def SH_C0 : ℚ := 282095 / 1000000

/-- `np.clip(x, lo, hi)`: clamp `x` into `[lo, hi]` (equals
`min (max x lo) hi` for `lo ≤ hi`, which is the only way it is used). -/
def npClip {α : Type} [LinearOrder α] (x lo hi : α) : α :=
  min (max x lo) hi

/-- `.astype(np.uint8)` applied to a nonnegative float value: C-style
float-to-integer conversion truncates toward zero, which is `⌊·⌋` on the
nonnegative values every call site produces (each call site clips first). -/
def u8castQ (x : ℚ) : ℕ :=
  (Int.floor x).toNat

/-- `rgb = np.clip(SH_C0 * fdc + 0.5, 0.0, 1.0)` from `convert_one`
(also `color` in `load_frame` of `pack_deltas.py`): decode one color
channel from a raw `f_dc` coefficient. -/
def rgbVal (c : ℚ) : ℚ :=
  npClip (SH_C0 * c + 1/2) 0 1

/-- `(rgb * 255.0 + 0.5).astype(np.uint8)` from `convert_one`: quantize a
decoded color channel value to a byte. -/
def quantOfColor (x : ℚ) : ℕ :=
  u8castQ (x * 255 + 1/2)

/-- The full raw-coefficient-to-byte color path of `convert_one`. -/
def rgbByte (c : ℚ) : ℕ :=
  quantOfColor (rgbVal c)

/-- Modelled from the spec's wording for comparison with the code
(refinement check): `clamp(0.282095 * f_dc + 0.5, 0, 1)`. -/
def specColor (c : ℚ) : ℚ :=
  max 0 (min (SH_C0 * c + 1/2) 1)

/-- Modelled from the spec's wording for comparison with the code
(refinement check): quantize via `floor(color*255 + 0.5)` (round-half-up). -/
def specQuant (x : ℚ) : ℤ :=
  Int.floor (x * 255 + 1/2)

/-- `np.fromfile(f, dtype=..., count=vertex_count)` at the end of
`read_vertices` (both source files): reads as many complete fixed-stride
records as the remaining bytes allow, up to `count`; a short file yields
fewer records without raising an exception (numpy partial-read semantics).
Record `i` is bytes `[i*stride, i*stride + stride)` of the payload. -/
def npFromfileRecords (stride count : ℕ) (bytes : List ℕ) : List (List ℕ) :=
  (List.range (min count (bytes.length / stride))).map
    (fun i => (bytes.drop (i * stride)).take stride)

/-- `np.clip(quat * 128.0 + 128.0, 0, 255).astype(np.uint8)` from
`convert_one`, applied to one normalized quaternion component (modelled
over ℝ since the component is the output of the real-valued norm step). -/
noncomputable def rotByteR (q : ℝ) : ℕ :=
  (Int.floor (npClip (q * 128 + 128) 0 255)).toNat

/-- `quat_norm = np.linalg.norm(quat, axis=1)`: Euclidean norm of the raw
quaternion `(rot_0, rot_1, rot_2, rot_3)`. -/
noncomputable def quatNormR (q : Fin 4 → ℚ) : ℝ :=
  Real.sqrt (∑ i, ((q i : ℝ)) ^ 2)

/-- `np.maximum(quat_norm, 1e-8)` from `convert_one`: the divisor used to
normalize the raw quaternion, floored at `1e-8`. -/
noncomputable def quatDenom (q : Fin 4 → ℚ) : ℝ :=
  max (quatNormR q) (1 / 10 ^ 8)

/-- `quat = quat / np.maximum(quat_norm, 1e-8)`: one component of the
normalized quaternion. -/
noncomputable def normQuat (q : Fin 4 → ℚ) (i : Fin 4) : ℝ :=
  (q i : ℝ) / quatDenom q

/-- C2: for every raw `f_dc` coefficient the decoded channel equals the
spec's `clamp(0.282095*c + 0.5, 0, 1)`, the quantized byte equals the
spec's `floor(color*255 + 0.5)` round-half-up rule, color `1.0` quantizes
to byte `255`, color `0.0` to byte `0`, and a value landing exactly on a
`.5` boundary (`x*255 = m + 1/2`) rounds up to `m + 1`. -/
theorem c2_color_quantization (c x : ℚ) (m : ℕ) (hb : x * 255 = m + 1/2) :
    rgbVal c = specColor c ∧
    (rgbByte c : ℤ) = specQuant (rgbVal c) ∧
    quantOfColor 1 = 255 ∧
    quantOfColor 0 = 0 ∧
    quantOfColor x = m + 1 := by
  refine ⟨?_, ?_, ?_, ?_, ?_⟩
  · unfold rgbVal npClip specColor
    simp only [min_def, max_def]
    split_ifs <;> linarith
  · unfold rgbByte quantOfColor u8castQ specQuant
    have h0 : (0:ℚ) ≤ rgbVal c := by
      unfold rgbVal npClip
      exact le_min (le_max_right _ _) (by norm_num)
    have hfl : (0:ℤ) ≤ Int.floor (rgbVal c * 255 + 1/2) := by
      apply Int.floor_nonneg.mpr
      nlinarith
    exact Int.toNat_of_nonneg hfl
  · unfold quantOfColor u8castQ
    norm_num
    decide
  · unfold quantOfColor u8castQ
    norm_num
  · unfold quantOfColor u8castQ
    rw [hb]
    have : ((m : ℚ) + 1/2) + 1/2 = ((m + 1 : ℕ) : ℚ) := by push_cast; ring
    rw [this, Int.floor_natCast]
    exact Int.toNat_natCast _

/-- C2 witness: concrete instantiation at `c = 0`, boundary value
`x = 1/510` (`x*255 = 0 + 1/2`), `m = 0`. -/
theorem c2_color_quantization_witness :
    rgbVal 0 = specColor 0 ∧
    (rgbByte 0 : ℤ) = specQuant (rgbVal 0) ∧
    quantOfColor 1 = 255 ∧
    quantOfColor 0 = 0 ∧
    quantOfColor (1/510) = 0 + 1 :=
  c2_color_quantization 0 (1/510) 0 (by norm_num)

/-- C5 counterexample: a schema declaring 2 records of stride 4 over a
4-byte payload: the reader returns a single (complete) record — fewer than
`vertex_count` — and raises nothing, rather than failing with
`TruncatedFileError`. -/
theorem c5_truncation_counterexample :
    npFromfileRecords 4 2 [1, 2, 3, 4] = [[1, 2, 3, 4]] ∧
    (npFromfileRecords 4 2 [1, 2, 3, 4]).length < 2 := by
  constructor <;> decide

/-- C5 amended: the record reader returns `min(count, ⌊available/stride⌋)`
records; when fewer bytes remain than `count * stride` it silently returns
fewer than `count` records (exactly `⌊available/stride⌋`), and it returns
all `count` records exactly when enough bytes remain. No error is raised
on truncation. -/
theorem c5_reader_truncation (stride count : ℕ) (bytes : List ℕ)
    (hs : 0 < stride) :
    (npFromfileRecords stride count bytes).length =
      min count (bytes.length / stride) ∧
    (bytes.length < count * stride →
      (npFromfileRecords stride count bytes).length = bytes.length / stride ∧
      bytes.length / stride < count) ∧
    (count * stride ≤ bytes.length →
      (npFromfileRecords stride count bytes).length = count) := by
  have hlen : (npFromfileRecords stride count bytes).length =
      min count (bytes.length / stride) := by
    unfold npFromfileRecords
    rw [List.length_map, List.length_range]
  refine ⟨hlen, ?_, ?_⟩
  · intro htr
    have hdiv : bytes.length / stride < count := by
      exact Nat.div_lt_of_lt_mul (by rw [Nat.mul_comm] at htr; exact htr)
    exact ⟨by rw [hlen]; exact Nat.min_eq_right hdiv.le, hdiv⟩
  · intro hen
    have hdiv : count ≤ bytes.length / stride :=
      (Nat.le_div_iff_mul_le hs).mpr hen
    rw [hlen]
    exact Nat.min_eq_left hdiv

/-- C5 amended witness: 2 requested records, stride 4, 4 bytes available:
the reader returns `4/4 = 1 < 2` records. -/
theorem c5_reader_truncation_witness :
    (npFromfileRecords 4 2 [9, 9, 9, 9]).length = min 2 1 ∧
    ((4:ℕ) < 2 * 4 →
      (npFromfileRecords 4 2 [9, 9, 9, 9]).length = 1 ∧ (1:ℕ) < 2) := by
  have h := c5_reader_truncation 4 2 [9, 9, 9, 9] (by norm_num)
  exact ⟨h.1, fun _ => by
    have := h.2.1 (by norm_num)
    simpa using this⟩

/-- C10: the rotation quantization clamps into `[0,255]` before the uint8
cast, so no byte is ever produced by wraparound (`rotByteR q ≤ 255` for
every real component) and a component exactly `+1.0` — whose affine image
is `256` — produces byte `255`, not `0`; `-1.0` produces byte `0`. -/
theorem c10_rotation_clamp :
    (∀ q : ℝ, rotByteR q ≤ 255) ∧ rotByteR 1 = 255 ∧ rotByteR (-1) = 0 := by
  refine ⟨?_, ?_, ?_⟩
  · intro q
    unfold rotByteR npClip
    have hle : min (max (q * 128 + 128) 0) 255 ≤ (255:ℝ) := min_le_right _ _
    have hfl : Int.floor (min (max (q * 128 + 128) 0) 255) ≤ (255:ℤ) := by
      have h2 := Int.floor_le_floor hle
      simpa using h2
    omega
  · unfold rotByteR npClip
    norm_num
    decide
  · unfold rotByteR npClip
    norm_num

/-- C9: the rotation decode divides by `max(‖q‖, 1e-8)`, so the divisor is
at least `1e-8` (in particular nonzero — the division is always a genuine
finite real number, never NaN/Inf), each decoded component is bounded by
`1e8 * |raw component|`, and the all-zero raw quaternion decodes to the
all-zero vector (well-defined but not a unit quaternion). -/
theorem c9_quat_norm_floor :
    ∀ q : Fin 4 → ℚ,
      ((1 / 10 ^ 8 : ℝ) ≤ quatDenom q ∧ quatDenom q ≠ 0) ∧
      (∀ i, |normQuat q i| ≤ 10 ^ 8 * |(q i : ℝ)|) ∧
      (∀ i, normQuat (fun _ => (0:ℚ)) i = 0) := by
  intro q
  have hpos : (0:ℝ) < 1 / 10 ^ 8 := by norm_num
  have hd : (1 / 10 ^ 8 : ℝ) ≤ quatDenom q := le_max_right _ _
  have hdpos : (0:ℝ) < quatDenom q := lt_of_lt_of_le hpos hd
  refine ⟨⟨hd, ne_of_gt hdpos⟩, ?_, ?_⟩
  · intro i
    unfold normQuat
    rw [abs_div, abs_of_pos hdpos]
    rw [div_le_iff₀ hdpos]
    calc |(q i : ℝ)| = |(q i : ℝ)| * 1 := (mul_one _).symm
      _ ≤ |(q i : ℝ)| * (10 ^ 8 * quatDenom q) := by
          apply mul_le_mul_of_nonneg_left _ (abs_nonneg _)
          calc (1:ℝ) = 10 ^ 8 * (1 / 10 ^ 8) := by norm_num
            _ ≤ 10 ^ 8 * quatDenom q := by
                apply mul_le_mul_of_nonneg_left hd (by norm_num)
      _ = 10 ^ 8 * |(q i : ℝ)| * quatDenom q := by ring
  · intro i
    unfold normQuat
    simp

/-! ### Single-frame converter (`convert_ply_to_splat.py`, `convert_one`) -/

/-- A decoded vertex buffer as `read_vertices` returns it: the schema's
field names (`v.dtype.names`) and one row per point giving each field's
raw float value (fields outside `names` are never consulted). -/
structure VBuf where
  names : List String
  rows : List (String → ℚ)

/-- The `required` field list of `convert_one`. -/
def requiredSingle : List String :=
  ["x", "y", "z", "f_dc_0", "f_dc_1", "f_dc_2", "opacity",
   "scale_0", "scale_1", "scale_2", "rot_0", "rot_1", "rot_2", "rot_3"]

/-- `missing = [k for k in required if k not in v.dtype.names]` of
`convert_one`. -/
def missingSingle (v : VBuf) : List String :=
  requiredSingle.filter (fun k => k ∉ v.names)

/-- `sigmoid(x) = 1 / (1 + exp(-x))` from both source files. -/
noncomputable def sigmoidR (x : ℝ) : ℝ :=
  1 / (1 + Real.exp (-x))

/-- `(np.clip(alpha, 0.0, 1.0) * 255.0 + 0.5).astype(np.uint8)` from
`convert_one`: opacity byte from the raw opacity value. -/
noncomputable def alphaByteR (x : ℝ) : ℕ :=
  (Int.floor (npClip (sigmoidR x) 0 1 * 255 + 1/2)).toNat

/-- One output record of `convert_one`'s structured dtype, field for
field: `x y z` position, `sx sy sz` post-exponential scale (all float32),
`cr cg cb ca` the `r g b a` color/opacity bytes, `qw qx qy qz` the
`rw rx ry rz` quantized rotation bytes. -/
structure SplatRecord where
  x : ℝ
  y : ℝ
  z : ℝ
  sx : ℝ
  sy : ℝ
  sz : ℝ
  cr : ℕ
  cg : ℕ
  cb : ℕ
  ca : ℕ
  qw : ℕ
  qx : ℕ
  qy : ℕ
  qz : ℕ

/-- The per-point body of `convert_one`: decode one raw row into one
output record (position cast, `scale = np.exp(raw)`, quaternion divided
by the floored norm then quantized, color and opacity quantized). -/
noncomputable def decodeRow (r : String → ℚ) : SplatRecord :=
  let q : Fin 4 → ℚ := ![r "rot_0", r "rot_1", r "rot_2", r "rot_3"]
  { x := (r "x" : ℝ)
    y := (r "y" : ℝ)
    z := (r "z" : ℝ)
    sx := Real.exp ((r "scale_0" : ℝ))
    sy := Real.exp ((r "scale_1" : ℝ))
    sz := Real.exp ((r "scale_2" : ℝ))
    cr := rgbByte (r "f_dc_0")
    cg := rgbByte (r "f_dc_1")
    cb := rgbByte (r "f_dc_2")
    ca := alphaByteR ((r "opacity" : ℝ))
    qw := rotByteR (normQuat q 0)
    qx := rotByteR (normQuat q 1)
    qy := rotByteR (normQuat q 2)
    qz := rotByteR (normQuat q 3) }

/-- The error raised by `convert_one`:
`ValueError(f"Missing fields in {ply_path}: {missing}")`, carrying the
full filtered list of absent required fields. -/
inductive ConvErr where
  | missingFields (fields : List String)
deriving DecidableEq

/-- `convert_one` up to the construction of the `out` array: validate the
required fields (raising with the complete missing list), then decode
every input row, in input point order. -/
noncomputable def convertOne (v : VBuf) : Except ConvErr (List SplatRecord) :=
  if missingSingle v = [] then
    .ok (v.rows.map decodeRow)
  else
    .error (.missingFields (missingSingle v))

/-- `out.tofile(splat_path)`: the structured array is written record by
record; each `<f4` field contributes its 4 little-endian bytes (via the
given float32 encoder `enc`) and each `u1` field one byte, in the exact
dtype order `x y z sx sy sz r g b a rw rx ry rz`. -/
def recordBytes (enc : ℝ → List ℕ) (s : SplatRecord) : List ℕ :=
  enc s.x ++ enc s.y ++ enc s.z ++ enc s.sx ++ enc s.sy ++ enc s.sz ++
    [s.cr, s.cg, s.cb, s.ca, s.qw, s.qx, s.qy, s.qz]

/-- The whole output file: the records' bytes concatenated in input
point order. -/
def splatBytes (enc : ℝ → List ℕ) (recs : List SplatRecord) : List ℕ :=
  (recs.map (recordBytes enc)).flatten

/-- A chunk of the flattening of uniformly sized lists recovers the
corresponding element. -/
theorem flatten_chunk {α β : Type} (c : ℕ) (f : α → List β)
    (hf : ∀ a, (f a).length = c) :
    ∀ (l : List α) (j : ℕ) (hj : j < l.length),
      (((l.map f).flatten.drop (c * j)).take c) = f (l.get ⟨j, hj⟩) := by
  intro l
  induction l with
  | nil => intro j hj; exact absurd hj (by simp)
  | cons a t ih =>
    intro j hj
    cases j with
    | zero =>
      simp only [List.map_cons, List.flatten_cons, Nat.mul_zero, List.drop_zero,
        List.get]
      rw [List.take_append_eq_append_take, hf a, Nat.sub_self, List.take_zero,
        List.append_nil, List.take_of_length_le (by rw [hf a])]
    | succ j' =>
      have hj' : j' < t.length := by simpa using Nat.lt_of_succ_lt_succ hj
      simp only [List.map_cons, List.flatten_cons, List.get]
      rw [List.drop_append_eq_append_drop, hf a,
        (by rw [Nat.mul_succ]; omega : c * (j' + 1) - c = c * j'),
        List.drop_of_length_le (by rw [hf a, Nat.mul_succ]; omega),
        List.nil_append]
      exact ih j' hj'

/-- `recordBytes` has length 32 whenever the encoder emits 4 bytes per
float32 value. -/
theorem recordBytes_length (enc : ℝ → List ℕ)
    (henc : ∀ x : ℝ, (enc x).length = 4) (s : SplatRecord) :
    (recordBytes enc s).length = 32 := by
  simp [recordBytes, henc]

/-- The output file length is 32 bytes per record. -/
theorem splatBytes_length (enc : ℝ → List ℕ)
    (henc : ∀ x : ℝ, (enc x).length = 4) :
    ∀ recs : List SplatRecord, (splatBytes enc recs).length = 32 * recs.length := by
  intro recs
  induction recs with
  | nil => simp [splatBytes]
  | cons a t ih =>
    simp only [splatBytes, List.map_cons, List.flatten_cons,
      List.length_append] at *
    rw [recordBytes_length enc henc a, ih, List.length_cons]
    ring

/-- C1: on a buffer containing all 14 required fields, `convert_one`
succeeds; with any 4-byte float32 encoding the output file is exactly
`32 * N` bytes; the `j`-th 32-byte record is the serialization of input
point `j`'s decoded values (records in input point order); and each
record's byte layout is exactly 3 float32 position components, 3
post-exponential float32 scale components, 4 RGBA bytes, then 4 quantized
rotation bytes. -/
theorem c1_single_frame_layout (enc : ℝ → List ℕ) (v : VBuf)
    (henc : ∀ x : ℝ, (enc x).length = 4)
    (hreq : ∀ k ∈ requiredSingle, k ∈ v.names) :
    ∃ recs, convertOne v = .ok recs ∧
      recs = v.rows.map decodeRow ∧
      (splatBytes enc recs).length = 32 * v.rows.length ∧
      (∀ j (hj : j < v.rows.length),
        ((splatBytes enc recs).drop (32 * j)).take 32 =
          recordBytes enc (decodeRow (v.rows.get ⟨j, hj⟩))) ∧
      (∀ r : String → ℚ,
        recordBytes enc (decodeRow r) =
          enc ((r "x" : ℝ)) ++ enc ((r "y" : ℝ)) ++ enc ((r "z" : ℝ)) ++
          enc (Real.exp ((r "scale_0" : ℝ))) ++
          enc (Real.exp ((r "scale_1" : ℝ))) ++
          enc (Real.exp ((r "scale_2" : ℝ))) ++
          [(decodeRow r).cr, (decodeRow r).cg, (decodeRow r).cb,
           (decodeRow r).ca, (decodeRow r).qw, (decodeRow r).qx,
           (decodeRow r).qy, (decodeRow r).qz]) := by
  have hmiss : missingSingle v = [] := by
    unfold missingSingle
    rw [List.filter_eq_nil_iff]
    intro k hk
    simpa using hreq k hk
  refine ⟨v.rows.map decodeRow, by simp [convertOne, hmiss], rfl, ?_, ?_, ?_⟩
  · rw [splatBytes_length enc henc, List.length_map]
  · intro j hj
    unfold splatBytes
    rw [List.map_map]
    have := flatten_chunk 32 (recordBytes enc ∘ decodeRow)
      (fun a => recordBytes_length enc henc (decodeRow a)) v.rows j hj
    simpa using this
  · intro r
    rfl

/-- A concrete float32 encoder stub used only to instantiate witnesses:
any function emitting 4 bytes per value satisfies the layout theorems. -/
def constEnc : ℝ → List ℕ :=
  fun _ => [0, 0, 0, 0]

/-- A one-point buffer carrying every required single-frame field. -/
def fullBuf : VBuf :=
  { names := requiredSingle, rows := [fun _ => 0] }

/-- C1 witness: the theorem applied to the one-point full buffer with a
concrete 4-byte encoder. -/
theorem c1_single_frame_layout_witness :
    ∃ recs, convertOne fullBuf = .ok recs ∧
      recs = fullBuf.rows.map decodeRow ∧
      (splatBytes constEnc recs).length = 32 * fullBuf.rows.length ∧
      (∀ j (hj : j < fullBuf.rows.length),
        ((splatBytes constEnc recs).drop (32 * j)).take 32 =
          recordBytes constEnc (decodeRow (fullBuf.rows.get ⟨j, hj⟩))) ∧
      (∀ r : String → ℚ,
        recordBytes constEnc (decodeRow r) =
          constEnc ((r "x" : ℝ)) ++ constEnc ((r "y" : ℝ)) ++
          constEnc ((r "z" : ℝ)) ++
          constEnc (Real.exp ((r "scale_0" : ℝ))) ++
          constEnc (Real.exp ((r "scale_1" : ℝ))) ++
          constEnc (Real.exp ((r "scale_2" : ℝ))) ++
          [(decodeRow r).cr, (decodeRow r).cg, (decodeRow r).cb,
           (decodeRow r).ca, (decodeRow r).qw, (decodeRow r).qx,
           (decodeRow r).qy, (decodeRow r).qz]) :=
  c1_single_frame_layout constEnc fullBuf (fun _ => rfl) (by decide)

/-! ### Multi-frame delta packer (`render/pack_deltas.py`) -/

/-- The `required` list of `load_frame`: position only. -/
def posRequired : List String :=
  ["x", "y", "z"]

/-- `missing = [k for k in required if k not in v.dtype.names]` of
`load_frame`. -/
def missingPos (v : VBuf) : List String :=
  posRequired.filter (fun k => k ∉ v.names)

/-- `has_fdc = all(k in v.dtype.names for k in ("f_dc_0","f_dc_1","f_dc_2"))`
together with `has_opacity = "opacity" in v.dtype.names`. -/
def HasFdcOpacity (v : VBuf) : Prop :=
  ("f_dc_0" ∈ v.names ∧ "f_dc_1" ∈ v.names ∧ "f_dc_2" ∈ v.names) ∧
    "opacity" ∈ v.names

/-- `has_scales = all(k in v.dtype.names for k in ("scale_0","scale_1","scale_2"))`. -/
def HasScales (v : VBuf) : Prop :=
  "scale_0" ∈ v.names ∧ "scale_1" ∈ v.names ∧ "scale_2" ∈ v.names

/-- `f_rest_fields = [f"f_rest_{i}" for i in range(27)]`, written out. -/
def fRestFields : List String :=
  ["f_rest_0", "f_rest_1", "f_rest_2", "f_rest_3", "f_rest_4", "f_rest_5",
   "f_rest_6", "f_rest_7", "f_rest_8", "f_rest_9", "f_rest_10", "f_rest_11",
   "f_rest_12", "f_rest_13", "f_rest_14", "f_rest_15", "f_rest_16",
   "f_rest_17", "f_rest_18", "f_rest_19", "f_rest_20", "f_rest_21",
   "f_rest_22", "f_rest_23", "f_rest_24", "f_rest_25", "f_rest_26"]

/-- `all(name in v.dtype.names for name in f_rest_fields)`. -/
def FRestComplete (v : VBuf) : Prop :=
  ∀ k ∈ fRestFields, k ∈ v.names

instance (v : VBuf) : Decidable (HasFdcOpacity v) := by
  unfold HasFdcOpacity; infer_instance

instance (v : VBuf) : Decidable (HasScales v) := by
  unfold HasScales; infer_instance

instance (v : VBuf) : Decidable (FRestComplete v) := by
  unfold FRestComplete; infer_instance

/-- `pos = np.stack([v["x"], v["y"], v["z"]], axis=1)` of `load_frame`. -/
def posOf (v : VBuf) : List (ℚ × ℚ × ℚ) :=
  v.rows.map (fun r => (r "x", r "y", r "z"))

/-- `rgba = np.concatenate([color, opacity], axis=1)` of `load_frame`:
per point the three clipped color channels and the sigmoid opacity. -/
noncomputable def rgbaOf (v : VBuf) : List (ℚ × ℚ × ℚ × ℝ) :=
  v.rows.map (fun r =>
    (rgbVal (r "f_dc_0"), rgbVal (r "f_dc_1"), rgbVal (r "f_dc_2"),
     sigmoidR ((r "opacity" : ℝ))))

/-- `scale = np.exp(np.stack([...scale_0..2...], axis=1))` of `load_frame`. -/
noncomputable def scaleOf (v : VBuf) : List (ℝ × ℝ × ℝ) :=
  v.rows.map (fun r =>
    (Real.exp ((r "scale_0" : ℝ)), Real.exp ((r "scale_1" : ℝ)),
     Real.exp ((r "scale_2" : ℝ))))

/-- `np.stack([v[name] for name in f_rest_fields], axis=1)`. -/
def frestOf (v : VBuf) : List (List ℚ) :=
  v.rows.map (fun r => fRestFields.map r)

/-- `f_rest = stack(...) if all fields present else None` of `load_frame`:
a partial `f_rest` set falls into the `None` branch. -/
def frestOptOf (v : VBuf) : Option (List (List ℚ)) :=
  if FRestComplete v then some (frestOf v) else none

/-- The decoded output of `load_frame`:
`(pos, rgba, scale, f_rest)`. -/
structure Loaded where
  pos : List (ℚ × ℚ × ℚ)
  rgba : List (ℚ × ℚ × ℚ × ℝ)
  scaleRows : List (ℝ × ℝ × ℝ)
  frest : Option (List (List ℚ))

/-- The distinct `ValueError`/`SystemExit` sites of `pack_deltas.py`, each
carrying what its message interpolates (the offending file's path, and for
the required-field check the full missing list). -/
inductive PackErr where
  | noFiles
  | missingFields (path : String) (fields : List String)
  | missingColorOpacity (path : String)
  | missingScale (path : String)
  | pointCountMismatch (path : String)
  | missingFRest (path : String)

/-- `load_frame(ply_path)`: validate `x,y,z` (raising with the complete
missing list), then color/opacity, then scale, then decode, with the
optional `f_rest` block attached only when all 27 fields are present. -/
noncomputable def loadFrame (f : String × VBuf) : Except PackErr Loaded :=
  if missingPos f.2 = [] then
    if HasFdcOpacity f.2 then
      if HasScales f.2 then
        .ok { pos := posOf f.2, rgba := rgbaOf f.2,
              scaleRows := scaleOf f.2, frest := frestOptOf f.2 }
      else .error (.missingScale f.1)
    else .error (.missingColorOpacity f.1)
  else .error (.missingFields f.1 (missingPos f.2))

/-- `delta[i, :, :3] = pos - pos0` with `delta[:, :, 3] = 0.0`: one
frame's slab of 4-component position deltas against the base frame. -/
def deltaRows (pos basePos : List (ℚ × ℚ × ℚ)) : List (ℚ × ℚ × ℚ × ℚ) :=
  List.zipWith
    (fun p p0 => (p.1 - p0.1, p.2.1 - p0.2.1, p.2.2 - p0.2.2, (0:ℚ)))
    pos basePos

/-- One frame's contribution to the stacked output arrays. -/
structure Slab where
  delta : List (ℚ × ℚ × ℚ × ℚ)
  rgba : List (ℚ × ℚ × ℚ × ℝ)
  scale4 : List (ℝ × ℝ × ℝ × ℝ)
  frestRows : List (List ℚ)

/-- The loop-body assignments for one frame `i`: the delta slab, the rgba
copy, the scale copy padded with a fourth `0.0` component, and (when the
base frame produced an `f_rest` array) the frame's `f_rest` rows. -/
noncomputable def slabOfLoaded (basePos : List (ℚ × ℚ × ℚ)) (bh : Bool)
    (L : Loaded) : Slab :=
  { delta := deltaRows L.pos basePos
    rgba := L.rgba
    scale4 := L.scaleRows.map (fun s => (s.1, s.2.1, s.2.2, (0:ℝ)))
    frestRows := if bh then L.frest.getD [] else [] }

/-- What `load_frame` returns on a buffer passing all its checks. -/
noncomputable def loadedOf (v : VBuf) : Loaded :=
  { pos := posOf v, rgba := rgbaOf v, scaleRows := scaleOf v,
    frest := frestOptOf v }

/-- The `for i, ply_path in enumerate(files)` loop of `main`: for each
frame load it, raise `Point count mismatch in {ply_path}` if its point
count differs from the base count `n`, raise `Missing f_rest in
{ply_path}` if the base frame has the complete `f_rest` set (`bh`) but
this frame does not, and otherwise record the frame's slab. -/
noncomputable def packLoop (n : ℕ) (basePos : List (ℚ × ℚ × ℚ)) (bh : Bool) :
    List (String × VBuf) → Except PackErr (List Slab)
  | [] => .ok []
  | f :: rest =>
    match loadFrame f with
    | .error e => .error e
    | .ok L =>
      if L.pos.length ≠ n then .error (.pointCountMismatch f.1)
      else if bh = true ∧ L.frest = none then .error (.missingFRest f.1)
      else
        match packLoop n basePos bh rest with
        | .error e => .error e
        | .ok slabs => .ok (slabOfLoaded basePos bh L :: slabs)

/-- A JSON value as `json.dumps` serializes the manifest's entries. -/
inductive JVal where
  | null
  | num (q : ℚ)
  | str (s : String)
deriving DecidableEq

/-- The `meta` dict of `main`, in insertion order: note the `"frest"` key
is always present, with value `"frest.bin"` or JSON `null`. -/
def metaOf (nPoints kFrames : ℕ) (fps : ℚ) (frestProduced : Bool) :
    List (String × JVal) :=
  [("width", .num nPoints), ("height", .num kFrames),
   ("points", .num nPoints), ("frames", .num kFrames), ("fps", .num fps),
   ("rgba", .str "rgba.bin"), ("scale", .str "scale.bin"),
   ("frest", if frestProduced then .str "frest.bin" else .null)]

/-- Everything `main` persists on success. -/
structure PackOut where
  pos0 : List (ℚ × ℚ × ℚ)
  delta : List (List (ℚ × ℚ × ℚ × ℚ))
  rgba : List (List (ℚ × ℚ × ℚ × ℝ))
  scaleArr : List (List (ℝ × ℝ × ℝ × ℝ))
  frest : Option (List (List (List ℚ)))
  meta : List (String × JVal)

/-- The filenames `main` writes, in write order; `frest.bin` is written
only when the `f_rest` array exists. -/
def writtenFiles (out : PackOut) : List String :=
  ["pos0.bin", "delta.bin", "rgba.bin", "scale.bin"] ++
    (if out.frest.isSome then ["frest.bin"] else []) ++ ["meta.json"]

/-- `files = sorted(p for p in input_dir.iterdir() if suffix == ".ply")`:
lexicographic sort of the frame files by filename. -/
def sortFrames (files : List (String × VBuf)) : List (String × VBuf) :=
  List.insertionSort (fun a b => a.1 ≤ b.1) files

/-- Fallback frame for total indexing operations. -/
def dfltFrame : String × VBuf :=
  ("", { names := [], rows := [] })

/-- `main` of `pack_deltas.py`, from the sorted file list to its persisted
outputs: empty input exits; the base (first sorted) frame fixes the point
count `n_points` and whether `f_rest` is packed; the loop validates and
stacks every frame (including the base itself); every `tofile`/manifest
write happens only after the loop finishes, so an error means no output
file is created (modelled by the `Except` error carrying no output). -/
noncomputable def mainPack (fps : ℚ) (files : List (String × VBuf)) :
    Except PackErr PackOut :=
  match sortFrames files with
  | [] => .error .noFiles
  | f0 :: rest =>
    match loadFrame f0 with
    | .error e => .error e
    | .ok base =>
      match packLoop base.pos.length base.pos base.frest.isSome
          (f0 :: rest) with
      | .error e => .error e
      | .ok slabs =>
        .ok { pos0 := base.pos
              delta := slabs.map Slab.delta
              rgba := slabs.map Slab.rgba
              scaleArr := slabs.map Slab.scale4
              frest := if base.frest.isSome then
                  some (slabs.map Slab.frestRows)
                else none
              meta := metaOf base.pos.length (f0 :: rest).length fps
                base.frest.isSome }

/-- The flat float32 content of `delta.bin`: the `(frame, point, channel)`
row-major flattening `tofile` performs. -/
def deltaFileFloats (d : List (List (ℚ × ℚ × ℚ × ℚ))) : List ℚ :=
  (d.map (fun s =>
    (s.map (fun p => [p.1, p.2.1, p.2.2.1, p.2.2.2])).flatten)).flatten

/-- The conjunction of the validation checks `load_frame` performs. -/
def LoadOK (v : VBuf) : Prop :=
  missingPos v = [] ∧ HasFdcOpacity v ∧ HasScales v

instance (v : VBuf) : Decidable (LoadOK v) := by
  unfold LoadOK; infer_instance

/-- `load_frame` succeeds on a buffer passing all its checks and returns
the decoded arrays. -/
theorem loadFrame_ok (f : String × VBuf) (h : LoadOK f.2) :
    loadFrame f = .ok (loadedOf f.2) := by
  unfold loadFrame loadedOf
  rw [if_pos h.1, if_pos h.2.1, if_pos h.2.2]

/-- `sorted(...)` returns a permutation of the frame files. -/
theorem sortFrames_perm (files : List (String × VBuf)) :
    (sortFrames files).Perm files :=
  List.perm_insertionSort _ _

/-- Membership is unchanged by the sort. -/
theorem mem_sortFrames {f : String × VBuf} {files : List (String × VBuf)} :
    f ∈ sortFrames files ↔ f ∈ files :=
  (sortFrames_perm files).mem_iff

instance : IsTotal (String × VBuf) (fun a b => a.1 ≤ b.1) :=
  ⟨fun a b => le_total a.1 b.1⟩

instance : IsTrans (String × VBuf) (fun a b => a.1 ≤ b.1) :=
  ⟨fun _ _ _ h1 h2 => le_trans h1 h2⟩

/-- `sorted(...)` returns a list in lexicographic filename order. -/
theorem sortFrames_sorted (files : List (String × VBuf)) :
    List.Sorted (fun a b : String × VBuf => a.1 ≤ b.1) (sortFrames files) :=
  List.sorted_insertionSort _ _

/-- The frame loop succeeds on a sequence of valid frames of uniform
point count `n` (all carrying `f_rest` when the base does) and stacks
each frame's slab in order. -/
theorem packLoop_ok (n : ℕ) (basePos : List (ℚ × ℚ × ℚ)) (bh : Bool) :
    ∀ l : List (String × VBuf),
      (∀ f ∈ l, LoadOK f.2) →
      (∀ f ∈ l, f.2.rows.length = n) →
      (bh = true → ∀ f ∈ l, FRestComplete f.2) →
      packLoop n basePos bh l =
        .ok (l.map (fun f => slabOfLoaded basePos bh (loadedOf f.2))) := by
  intro l
  induction l with
  | nil => intro _ _ _; rfl
  | cons a t ih =>
    intro hok hcnt hfr
    have ha := loadFrame_ok a (hok a (by simp))
    simp only [packLoop, ha]
    have hlen : (loadedOf a.2).pos.length = n := by
      simp [loadedOf, posOf, hcnt a (by simp)]
    rw [if_neg (by simp [hlen])]
    have hfr' : ¬ (bh = true ∧ (loadedOf a.2).frest = none) := by
      rintro ⟨hb, hnone⟩
      have hc := hfr hb a (by simp)
      simp [loadedOf, frestOptOf, hc] at hnone
    rw [if_neg hfr']
    rw [ih (fun f hf => hok f (by simp [hf]))
      (fun f hf => hcnt f (by simp [hf]))
      (fun hb f hf => hfr hb f (by simp [hf]))]
    simp

/-- On a sequence of otherwise-valid frames containing a point-count
mismatch, the frame loop fails with the mismatch error naming the first
(in processing order) offending frame's filename. -/
theorem packLoop_mismatch (n : ℕ) (basePos : List (ℚ × ℚ × ℚ)) (bh : Bool) :
    ∀ l : List (String × VBuf),
      (∀ f ∈ l, LoadOK f.2) →
      (bh = true → ∀ f ∈ l, FRestComplete f.2) →
      (∃ f ∈ l, f.2.rows.length ≠ n) →
      ∃ f, l.find? (fun g => g.2.rows.length != n) = some f ∧
        packLoop n basePos bh l = .error (.pointCountMismatch f.1) := by
  intro l
  induction l with
  | nil => rintro _ _ ⟨f, hf, _⟩; simp at hf
  | cons a t ih =>
    intro hok hfr hmix
    have ha := loadFrame_ok a (hok a (by simp))
    by_cases hcM : a.2.rows.length = n
    · have hmix' : ∃ f ∈ t, f.2.rows.length ≠ n := by
        rcases hmix with ⟨f, hf, hne⟩
        rcases List.mem_cons.mp hf with rfl | hft
        · exact absurd hcM hne
        · exact ⟨f, hft, hne⟩
      rcases ih (fun f hf => hok f (by simp [hf]))
        (fun hb f hf => hfr hb f (by simp [hf])) hmix' with ⟨f, hfind, herr⟩
      refine ⟨f, ?_, ?_⟩
      · rw [List.find?_cons]
        have hb : (a.2.rows.length != n) = false := by simp [hcM]
        simp only [hb]
        exact hfind
      · simp only [packLoop, ha]
        rw [if_neg (by simp [loadedOf, posOf, hcM])]
        have hfr' : ¬ (bh = true ∧ (loadedOf a.2).frest = none) := by
          rintro ⟨hb, hnone⟩
          have hc := hfr hb a (by simp)
          simp [loadedOf, frestOptOf, hc] at hnone
        rw [if_neg hfr', herr]
    · refine ⟨a, ?_, ?_⟩
      · rw [List.find?_cons]
        have hb : (a.2.rows.length != n) = true := by simpa using hcM
        simp only [hb]
      · simp only [packLoop, ha]
        rw [if_pos (by simp [loadedOf, posOf, hcM])]

/-- `deltaRows` of a frame against itself is all-zero. -/
theorem deltaRows_self (pos : List (ℚ × ℚ × ℚ)) :
    deltaRows pos pos =
      List.replicate pos.length ((0:ℚ), (0:ℚ), (0:ℚ), (0:ℚ)) := by
  induction pos with
  | nil => rfl
  | cons p t ih =>
    simp only [deltaRows, List.zipWith_cons_cons, List.length_cons,
      List.replicate_succ] at *
    rw [ih]
    simp

/-- `getD` below the length commutes with `map`. -/
theorem getD_map {α β : Type} (g : α → β) (db : β) (da : α) :
    ∀ (l : List α) (i : ℕ), i < l.length →
      (l.map g).getD i db = g (l.getD i da) := by
  intro l
  induction l with
  | nil => intro i hi; simp at hi
  | cons a t ih =>
    intro i hi
    cases i with
    | zero => rfl
    | succ j =>
      simpa using ih j (by simpa using Nat.lt_of_succ_lt_succ hi)

/-- `getD` below both lengths commutes with `zipWith`. -/
theorem getD_zipWith {α β γ : Type} (g : α → β → γ) (dc : γ) (da : α)
    (db : β) :
    ∀ (a : List α) (b : List β) (j : ℕ), j < a.length → j < b.length →
      (List.zipWith g a b).getD j dc = g (a.getD j da) (b.getD j db) := by
  intro a
  induction a with
  | nil => intro b j hj _; simp at hj
  | cons x t ih =>
    intro b j hja hjb
    cases b with
    | nil => simp at hjb
    | cons y s =>
      cases j with
      | zero => rfl
      | succ j' =>
        simpa using ih s j' (by simpa using Nat.lt_of_succ_lt_succ hja)
          (by simpa using Nat.lt_of_succ_lt_succ hjb)

/-- Per-point contribution of one slab to `delta.bin`: 4 floats each. -/
theorem flat4_length (s : List (ℚ × ℚ × ℚ × ℚ)) :
    ((s.map (fun p => [p.1, p.2.1, p.2.2.1, p.2.2.2])).flatten).length =
      4 * s.length := by
  induction s with
  | nil => rfl
  | cons p t ih =>
    simp only [List.map_cons, List.flatten_cons, List.length_append, ih,
      List.length_cons]
    simp
    ring

/-- `delta.bin` holds `K × N × 4` float values for `K` slabs of `N`
points. -/
theorem deltaFileFloats_length (N : ℕ) :
    ∀ d : List (List (ℚ × ℚ × ℚ × ℚ)), (∀ s ∈ d, s.length = N) →
      (deltaFileFloats d).length = d.length * N * 4 := by
  intro d
  induction d with
  | nil => intro _; simp [deltaFileFloats]
  | cons s t ih =>
    intro h
    simp only [deltaFileFloats, List.map_cons, List.flatten_cons,
      List.length_append, List.length_cons] at *
    rw [ih (fun x hx => h x (by simp [hx])), flat4_length,
      h s (by simp)]
    ring

/-- C3: on a sequence of otherwise-valid frames in which some frame's
point count differs from the base (first sorted) frame's, `main` fails
with the point-count-mismatch error naming the (first) offending frame's
filename; the error result carries no output, matching the source where
every `tofile`/manifest write sits after the loop that raises. -/
theorem c3_point_count_mismatch (fps : ℚ) (files : List (String × VBuf))
    (hne : files ≠ [])
    (hok : ∀ f ∈ files, LoadOK f.2)
    (hfr : (∀ f ∈ files, FRestComplete f.2) ∨
      (∀ f ∈ files, ¬ FRestComplete f.2))
    (hmix : ∃ f ∈ files,
      f.2.rows.length ≠ ((sortFrames files).headD dfltFrame).2.rows.length) :
    ∃ f, (sortFrames files).find?
        (fun g => g.2.rows.length
          != ((sortFrames files).headD dfltFrame).2.rows.length) = some f ∧
      mainPack fps files = .error (.pointCountMismatch f.1) := by
  cases hs : sortFrames files with
  | nil =>
    exfalso
    apply hne
    have hlen := (sortFrames_perm files).length_eq
    rw [hs] at hlen
    exact List.length_eq_zero.mp hlen.symm
  | cons f0 rest =>
    rw [hs] at hmix
    rw [List.headD_cons] at hmix
    rw [List.headD_cons]
    have hmem0 : f0 ∈ files := mem_sortFrames.mp (by rw [hs]; simp)
    have hok0 : LoadOK f0.2 := hok f0 hmem0
    have hbase := loadFrame_ok f0 hok0
    have hn : (loadedOf f0.2).pos.length = f0.2.rows.length := by
      simp [loadedOf, posOf]
    have hok' : ∀ f ∈ f0 :: rest, LoadOK f.2 := by
      intro f hf
      refine hok f (mem_sortFrames.mp ?_)
      rw [hs]; exact hf
    have hfr' : (frestOptOf f0.2).isSome = true →
        ∀ f ∈ f0 :: rest, FRestComplete f.2 := by
      intro hb f hf
      rcases hfr with hall | hnone
      · refine hall f (mem_sortFrames.mp ?_)
        rw [hs]; exact hf
      · exfalso
        have h0 := hnone f0 hmem0
        simp [frestOptOf, h0] at hb
    have hmix' : ∃ f ∈ f0 :: rest, f.2.rows.length ≠ f0.2.rows.length := by
      rcases hmix with ⟨f, hf, hne'⟩
      refine ⟨f, ?_, hne'⟩
      have hf' := mem_sortFrames.mpr hf
      rw [hs] at hf'
      exact hf'
    rcases packLoop_mismatch f0.2.rows.length (loadedOf f0.2).pos
      ((frestOptOf f0.2).isSome) (f0 :: rest) hok' hfr' hmix'
      with ⟨f, hfind, herr⟩
    refine ⟨f, hfind, ?_⟩
    simp only [mainPack, hs, hbase]
    have hbh : (loadedOf f0.2).frest.isSome = (frestOptOf f0.2).isSome := by
      simp [loadedOf]
    rw [hbh, hn, herr]

/-- C3 witness frames: a valid one-point frame. (Both witness frames
carry the same filename so that the sort's comparison is reflexivity.) -/
def frameA : String × VBuf :=
  ("a.ply",
   { names := ["x", "y", "z", "f_dc_0", "f_dc_1", "f_dc_2", "opacity",
               "scale_0", "scale_1", "scale_2"],
     rows := [fun _ => 0] })

/-- Second C3 witness frame: same schema and filename, two points. -/
def frameB : String × VBuf :=
  ("a.ply",
   { names := ["x", "y", "z", "f_dc_0", "f_dc_1", "f_dc_2", "opacity",
               "scale_0", "scale_1", "scale_2"],
     rows := [fun _ => 0, fun _ => 1] })

/-- The two-frame C3 witness sequence keeps its order under the sort. -/
theorem sortFrames_frameAB :
    sortFrames [frameA, frameB] = [frameA, frameB] := by
  simp [sortFrames, List.insertionSort, List.orderedInsert, frameA, frameB]

/-- C3 witness: the theorem applied to the concrete two-frame sequence
where the second frame has one more point than the base. -/
theorem c3_point_count_mismatch_witness :
    ∃ f, (sortFrames [frameA, frameB]).find?
        (fun g => g.2.rows.length
          != ((sortFrames [frameA, frameB]).headD dfltFrame).2.rows.length) =
          some f ∧
      mainPack 12 [frameA, frameB] = .error (.pointCountMismatch f.1) :=
  c3_point_count_mismatch 12 [frameA, frameB] (by simp)
    (by decide) (Or.inr (by decide))
    (by
      refine ⟨frameB, by simp, ?_⟩
      rw [sortFrames_frameAB]
      simp [frameA, frameB])

/-- C6: `convert_one` raises one error carrying exactly the filtered list
of all absent required fields (characterized pointwise); on a buffer
whose schema is exactly the required set minus `scale_0` and `scale_1`,
the carried list is exactly `["scale_0", "scale_1"]`; `load_frame`
likewise lists every absent field of its own required list (`x,y,z`). -/
theorem c6_missing_field_list (v w : VBuf) (path : String)
    (hv : missingSingle v ≠ [])
    (hw : missingPos w ≠ []) :
    convertOne v = .error (.missingFields (missingSingle v)) ∧
    (∀ k, k ∈ missingSingle v ↔ k ∈ requiredSingle ∧ k ∉ v.names) ∧
    (∀ u : VBuf,
      u.names = ["x", "y", "z", "f_dc_0", "f_dc_1", "f_dc_2", "opacity",
                 "scale_2", "rot_0", "rot_1", "rot_2", "rot_3"] →
      convertOne u = .error (.missingFields ["scale_0", "scale_1"])) ∧
    loadFrame (path, w) = .error (.missingFields path (missingPos w)) ∧
    (∀ k, k ∈ missingPos w ↔ k ∈ posRequired ∧ k ∉ w.names) := by
  refine ⟨?_, ?_, ?_, ?_, ?_⟩
  · unfold convertOne
    rw [if_neg hv]
  · intro k
    simp [missingSingle, List.mem_filter]
  · intro u hu
    have hm : missingSingle u = ["scale_0", "scale_1"] := by
      unfold missingSingle
      rw [hu]
      decide
    unfold convertOne
    rw [hm, if_neg (by decide)]
  · unfold loadFrame
    rw [if_neg hw]
  · intro k
    simp [missingPos, List.mem_filter]

/-- C6 witness: a buffer missing exactly `scale_0` and `scale_1`, and a
buffer with an empty schema on the `load_frame` side. -/
theorem c6_missing_field_list_witness :
    convertOne
        { names := ["x", "y", "z", "f_dc_0", "f_dc_1", "f_dc_2", "opacity",
                    "scale_2", "rot_0", "rot_1", "rot_2", "rot_3"],
          rows := [] } =
      .error (.missingFields
        (missingSingle
          { names := ["x", "y", "z", "f_dc_0", "f_dc_1", "f_dc_2", "opacity",
                      "scale_2", "rot_0", "rot_1", "rot_2", "rot_3"],
            rows := [] })) ∧
    (∀ k, k ∈ missingSingle
        { names := ["x", "y", "z", "f_dc_0", "f_dc_1", "f_dc_2", "opacity",
                    "scale_2", "rot_0", "rot_1", "rot_2", "rot_3"],
          rows := [] } ↔
      k ∈ requiredSingle ∧
        k ∉ (VBuf.mk
          ["x", "y", "z", "f_dc_0", "f_dc_1", "f_dc_2", "opacity",
           "scale_2", "rot_0", "rot_1", "rot_2", "rot_3"] []).names) ∧
    (∀ u : VBuf,
      u.names = ["x", "y", "z", "f_dc_0", "f_dc_1", "f_dc_2", "opacity",
                 "scale_2", "rot_0", "rot_1", "rot_2", "rot_3"] →
      convertOne u = .error (.missingFields ["scale_0", "scale_1"])) ∧
    loadFrame ("w.ply", { names := [], rows := [] }) =
      .error (.missingFields "w.ply"
        (missingPos { names := [], rows := [] })) ∧
    (∀ k, k ∈ missingPos { names := [], rows := [] } ↔
      k ∈ posRequired ∧ k ∉ (VBuf.mk [] []).names) :=
  c6_missing_field_list
    { names := ["x", "y", "z", "f_dc_0", "f_dc_1", "f_dc_2", "opacity",
                "scale_2", "rot_0", "rot_1", "rot_2", "rot_3"],
      rows := [] }
    { names := [], rows := [] } "w.ply" (by decide) (by decide)

/-- A buffer with all of `load_frame`'s required fields plus a single
`f_rest` field (a strictly partial 27-field color-detail set). -/
def partialRestBuf : VBuf :=
  { names := ["x", "y", "z", "f_dc_0", "f_dc_1", "f_dc_2", "opacity",
              "scale_0", "scale_1", "scale_2", "f_rest_0"],
    rows := [fun _ => 0] }

/-- C4 counterexample: on a buffer carrying `f_rest_0` but not the other
26 fields, `load_frame` succeeds with `f_rest = None` — a partial
`f_rest` set is silently treated as absent, not rejected with a
missing-field error as the claim states. -/
theorem c4_partial_frest_counterexample :
    (loadFrame ("frame0.ply", partialRestBuf)).map Loaded.frest =
      .ok none := by
  have hok : LoadOK partialRestBuf := by decide
  have hnf : ¬ FRestComplete partialRestBuf := by decide
  rw [loadFrame_ok _ hok]
  simp [loadedOf, frestOptOf, hnf, Except.map]

/-- C4 amended: a buffer with a partial `f_rest` set decodes successfully
with `f_rest = None` (never a missing-field error); the error the spec
describes arises only in the multi-frame loop, when the base frame has
the complete set (`bh = true`) and the current frame decodes to
`f_rest = None`, and it names that frame's file. -/
theorem c4_partial_frest_ignored (path : String) (v : VBuf)
    (hok : LoadOK v) (hnf : ¬ FRestComplete v)
    (n : ℕ) (basePos : List (ℚ × ℚ × ℚ)) (rest : List (String × VBuf))
    (hn : v.rows.length = n) :
    loadFrame (path, v) =
      .ok { pos := posOf v, rgba := rgbaOf v, scaleRows := scaleOf v,
            frest := none } ∧
    packLoop n basePos true ((path, v) :: rest) =
      .error (.missingFRest path) := by
  have hload : loadFrame (path, v) = .ok (loadedOf v) :=
    loadFrame_ok (path, v) hok
  have hfrest : frestOptOf v = none := by simp [frestOptOf, hnf]
  constructor
  · rw [hload]
    simp [loadedOf, hfrest]
  · simp only [packLoop, hload]
    have h1 : ¬ ((loadedOf v).pos.length ≠ n) := by simp [loadedOf, posOf, hn]
    have h2 : (loadedOf v).frest = none := by simp [loadedOf, hfrest]
    simp [h1, h2]

/-- C4 amended witness: the theorem applied to the concrete
partial-`f_rest` buffer. -/
theorem c4_partial_frest_ignored_witness :
    loadFrame ("frame1.ply", partialRestBuf) =
      .ok { pos := posOf partialRestBuf, rgba := rgbaOf partialRestBuf,
            scaleRows := scaleOf partialRestBuf, frest := none } ∧
    packLoop 1 [] true (("frame1.ply", partialRestBuf) :: []) =
      .error (.missingFRest "frame1.ply") :=
  c4_partial_frest_ignored "frame1.ply" partialRestBuf (by decide)
    (by decide) 1 [] [] (by decide)

/-- `getD` below the length returns an element of the list. -/
theorem getD_mem {α : Type} (d : α) :
    ∀ (l : List α) (i : ℕ), i < l.length → l.getD i d ∈ l := by
  intro l
  induction l with
  | nil => intro i hi; simp at hi
  | cons a t ih =>
    intro i hi
    cases i with
    | zero => simp
    | succ j =>
      have := ih j (by simpa using Nat.lt_of_succ_lt_succ hi)
      simp only [List.getD_cons_succ]
      exact List.mem_cons_of_mem a this

/-- C7: frames are processed in lexicographic filename order (the sorted
list is ordered and a permutation of the input), the first sorted file is
the base; `main` succeeds on a valid uniform sequence; the delta array
stacks, per sorted frame, `zipWith`-subtractions of the base positions
with the 4th slot fixed `0`; hence frame 0's slab is identically zero;
each slab has `N` rows, there are `K = files.length` slabs, and flattened
`delta.bin` holds `K*N*4` float values. -/
theorem c7_delta_buffer (fps : ℚ) (files : List (String × VBuf)) (N : ℕ)
    (hne : files ≠ [])
    (hok : ∀ f ∈ files, LoadOK f.2)
    (hcnt : ∀ f ∈ files, f.2.rows.length = N)
    (hfr : (∀ f ∈ files, FRestComplete f.2) ∨
      (∀ f ∈ files, ¬ FRestComplete f.2)) :
    List.Sorted (fun a b : String × VBuf => a.1 ≤ b.1) (sortFrames files) ∧
    (sortFrames files).Perm files ∧
    ∃ out, mainPack fps files = .ok out ∧
      out.pos0 = posOf ((sortFrames files).headD dfltFrame).2 ∧
      out.delta = (sortFrames files).map
        (fun f => deltaRows (posOf f.2)
          (posOf ((sortFrames files).headD dfltFrame).2)) ∧
      out.delta.length = files.length ∧
      (∀ s ∈ out.delta, s.length = N) ∧
      out.delta.headD [] =
        List.replicate N ((0:ℚ), (0:ℚ), (0:ℚ), (0:ℚ)) ∧
      (∀ i j, i < files.length → j < N →
        (out.delta.getD i []).getD j (0, 0, 0, 0) =
          (((posOf ((sortFrames files).getD i dfltFrame).2).getD j
                (0, 0, 0)).1 -
              ((posOf ((sortFrames files).headD dfltFrame).2).getD j
                (0, 0, 0)).1,
            ((posOf ((sortFrames files).getD i dfltFrame).2).getD j
                (0, 0, 0)).2.1 -
              ((posOf ((sortFrames files).headD dfltFrame).2).getD j
                (0, 0, 0)).2.1,
            ((posOf ((sortFrames files).getD i dfltFrame).2).getD j
                (0, 0, 0)).2.2 -
              ((posOf ((sortFrames files).headD dfltFrame).2).getD j
                (0, 0, 0)).2.2,
            (0:ℚ))) ∧
      (deltaFileFloats out.delta).length = files.length * N * 4 := by
  refine ⟨sortFrames_sorted files, sortFrames_perm files, ?_⟩
  cases hs : sortFrames files with
  | nil =>
    exfalso
    apply hne
    have hlen := (sortFrames_perm files).length_eq
    rw [hs] at hlen
    exact List.length_eq_zero.mp hlen.symm
  | cons f0 rest =>
    rw [List.headD_cons]
    have hmemT : ∀ f ∈ f0 :: rest, f ∈ files := by
      intro f hf
      refine mem_sortFrames.mp ?_
      rw [hs]; exact hf
    have hmem0 : f0 ∈ files := hmemT f0 (by simp)
    have hlenEq : (f0 :: rest).length = files.length := by
      have hlen := (sortFrames_perm files).length_eq
      rw [hs] at hlen
      exact hlen
    have hok' : ∀ f ∈ f0 :: rest, LoadOK f.2 := fun f hf => hok f (hmemT f hf)
    have hcnt' : ∀ f ∈ f0 :: rest, f.2.rows.length = N :=
      fun f hf => hcnt f (hmemT f hf)
    have hbase := loadFrame_ok f0 (hok f0 hmem0)
    have hn : (loadedOf f0.2).pos.length = N := by
      simp [loadedOf, posOf, hcnt f0 hmem0]
    have hfr' : (loadedOf f0.2).frest.isSome = true →
        ∀ f ∈ f0 :: rest, FRestComplete f.2 := by
      intro hb f hf
      rcases hfr with hall | hnone
      · exact hall f (hmemT f hf)
      · exfalso
        have h0 := hnone f0 hmem0
        simp [loadedOf, frestOptOf, h0] at hb
    have hcnt'' : ∀ f ∈ f0 :: rest,
        f.2.rows.length = (loadedOf f0.2).pos.length := by
      intro f hf
      rw [hn]
      exact hcnt' f hf
    have hloop := packLoop_ok (loadedOf f0.2).pos.length (loadedOf f0.2).pos
      ((loadedOf f0.2).frest.isSome) (f0 :: rest) hok' hcnt'' hfr'
    have hmain : mainPack fps files = .ok
        { pos0 := (loadedOf f0.2).pos
          delta := ((f0 :: rest).map (fun f =>
            slabOfLoaded (loadedOf f0.2).pos
              ((loadedOf f0.2).frest.isSome) (loadedOf f.2))).map Slab.delta
          rgba := ((f0 :: rest).map (fun f =>
            slabOfLoaded (loadedOf f0.2).pos
              ((loadedOf f0.2).frest.isSome) (loadedOf f.2))).map Slab.rgba
          scaleArr := ((f0 :: rest).map (fun f =>
            slabOfLoaded (loadedOf f0.2).pos
              ((loadedOf f0.2).frest.isSome) (loadedOf f.2))).map Slab.scale4
          frest := if (loadedOf f0.2).frest.isSome then
              some (((f0 :: rest).map (fun f =>
                slabOfLoaded (loadedOf f0.2).pos
                  ((loadedOf f0.2).frest.isSome)
                  (loadedOf f.2))).map Slab.frestRows)
            else none
          meta := metaOf (loadedOf f0.2).pos.length (f0 :: rest).length fps
            ((loadedOf f0.2).frest.isSome) } := by
      simp only [mainPack, hs, hbase, hloop]
    have hdelta : (((f0 :: rest).map (fun f =>
        slabOfLoaded (loadedOf f0.2).pos ((loadedOf f0.2).frest.isSome)
          (loadedOf f.2))).map Slab.delta) =
        (f0 :: rest).map (fun f => deltaRows (posOf f.2) (posOf f0.2)) := by
      rw [List.map_map]
      apply List.map_congr_left
      intro f _
      simp [slabOfLoaded, loadedOf]
    have hslablen : ∀ s ∈ (f0 :: rest).map
        (fun f => deltaRows (posOf f.2) (posOf f0.2)), s.length = N := by
      intro s hsmem
      rcases List.mem_map.mp hsmem with ⟨f, hf, rfl⟩
      simp [deltaRows, List.length_zipWith, posOf, hcnt' f hf,
        hcnt f0 hmem0]
    refine ⟨_, hmain, ?_, ?_, ?_, ?_, ?_, ?_, ?_⟩
    · dsimp only
      simp [loadedOf]
    · dsimp only
      exact hdelta
    · dsimp only
      rw [hdelta, List.length_map]
      exact hlenEq
    · dsimp only
      rw [hdelta]
      exact hslablen
    · dsimp only
      rw [hdelta]
      simp only [List.map_cons, List.headD_cons]
      rw [deltaRows_self]
      rw [(by simp [posOf, hcnt f0 hmem0] : (posOf f0.2).length = N)]
    · intro i j hi hj
      dsimp only
      rw [hdelta]
      have hi' : i < (f0 :: rest).length := by rw [hlenEq]; exact hi
      rw [getD_map (fun f => deltaRows (posOf f.2) (posOf f0.2)) []
        dfltFrame (f0 :: rest) i hi']
      have hfmem := getD_mem dfltFrame (f0 :: rest) i hi'
      have hja : j < (posOf ((f0 :: rest).getD i dfltFrame).2).length := by
        simp only [posOf, List.length_map]
        rw [hcnt' _ hfmem]
        exact hj
      have hjb : j < (posOf f0.2).length := by
        simp only [posOf, List.length_map]
        rw [hcnt f0 hmem0]
        exact hj
      unfold deltaRows
      rw [getD_zipWith _ _ (0, 0, 0) (0, 0, 0) _ _ j hja hjb]
    · dsimp only
      rw [hdelta, deltaFileFloats_length N _ hslablen, List.length_map,
        hlenEq]

/-- A valid single frame used to instantiate witnesses of the
multi-frame theorems. -/
def frameC : String × VBuf :=
  ("c.ply",
   { names := ["x", "y", "z", "f_dc_0", "f_dc_1", "f_dc_2", "opacity",
               "scale_0", "scale_1", "scale_2"],
     rows := [fun _ => 0] })

/-- C7 witness: the theorem applied to a concrete one-frame, one-point
sequence. -/
theorem c7_delta_buffer_witness :
    List.Sorted (fun a b : String × VBuf => a.1 ≤ b.1)
      (sortFrames [frameC]) ∧
    (sortFrames [frameC]).Perm [frameC] ∧
    ∃ out, mainPack 5 [frameC] = .ok out ∧
      out.pos0 = posOf ((sortFrames [frameC]).headD dfltFrame).2 ∧
      out.delta = (sortFrames [frameC]).map
        (fun f => deltaRows (posOf f.2)
          (posOf ((sortFrames [frameC]).headD dfltFrame).2)) ∧
      out.delta.length = [frameC].length ∧
      (∀ s ∈ out.delta, s.length = 1) ∧
      out.delta.headD [] =
        List.replicate 1 ((0:ℚ), (0:ℚ), (0:ℚ), (0:ℚ)) ∧
      (∀ i j, i < [frameC].length → j < 1 →
        (out.delta.getD i []).getD j (0, 0, 0, 0) =
          (((posOf ((sortFrames [frameC]).getD i dfltFrame).2).getD j
                (0, 0, 0)).1 -
              ((posOf ((sortFrames [frameC]).headD dfltFrame).2).getD j
                (0, 0, 0)).1,
            ((posOf ((sortFrames [frameC]).getD i dfltFrame).2).getD j
                (0, 0, 0)).2.1 -
              ((posOf ((sortFrames [frameC]).headD dfltFrame).2).getD j
                (0, 0, 0)).2.1,
            ((posOf ((sortFrames [frameC]).getD i dfltFrame).2).getD j
                (0, 0, 0)).2.2 -
              ((posOf ((sortFrames [frameC]).headD dfltFrame).2).getD j
                (0, 0, 0)).2.2,
            (0:ℚ))) ∧
      (deltaFileFloats out.delta).length = [frameC].length * 1 * 4 :=
  c7_delta_buffer 5 [frameC] 1 (by simp) (by decide) (by decide)
    (Or.inr (by decide))

/-- A singleton sequence is unchanged by the sort. -/
theorem sortFrames_singleton (f : String × VBuf) : sortFrames [f] = [f] := by
  simp [sortFrames, List.insertionSort, List.orderedInsert]

/-- A valid single frame (no `f_rest` fields) for the C8 counterexample. -/
def frameD : String × VBuf :=
  ("d.ply",
   { names := ["x", "y", "z", "f_dc_0", "f_dc_1", "f_dc_2", "opacity",
               "scale_0", "scale_1", "scale_2"],
     rows := [fun _ => 0] })

/-- C8 counterexample: a concrete run producing no color-detail buffer
still writes a manifest that CONTAINS the `"frest"` key (with JSON
`null`); the key is not omitted as the claim states. -/
theorem c8_manifest_counterexample :
    (mainPack 12 [frameD]).map PackOut.meta = .ok (metaOf 1 1 12 false) ∧
    ("frest", JVal.null) ∈ metaOf 1 1 12 false := by
  constructor
  · have hok : LoadOK frameD.2 := by decide
    have hnf : ¬ FRestComplete frameD.2 := by decide
    have hbase := loadFrame_ok frameD hok
    have hbh : (loadedOf frameD.2).frest.isSome = false := by
      simp [loadedOf, frestOptOf, hnf]
    have hloop := packLoop_ok (loadedOf frameD.2).pos.length
      (loadedOf frameD.2).pos false [frameD]
      (by intro f hf; simp at hf; subst hf; exact hok)
      (by intro f hf; simp at hf; subst hf; rfl)
      (by intro hb; simp at hb)
    simp only [mainPack, sortFrames_singleton, hbase, hbh, hloop,
      Except.map]
    simp [loadedOf, posOf, frameD]
  · decide

/-- C8 amended: when the base frame lacks the complete `f_rest` set, no
color-detail buffer is produced (`frest.bin` is not written) and the
manifest still always carries point count, frame count and fps — but the
color-detail key `"frest"` is present in the manifest with value JSON
`null`, not omitted. -/
theorem c8_manifest_frest_null (fps : ℚ) (files : List (String × VBuf))
    (N : ℕ)
    (hne : files ≠ [])
    (hok : ∀ f ∈ files, LoadOK f.2)
    (hcnt : ∀ f ∈ files, f.2.rows.length = N)
    (hnf : ¬ FRestComplete ((sortFrames files).headD dfltFrame).2) :
    ∃ out, mainPack fps files = .ok out ∧
      out.meta = metaOf N files.length fps false ∧
      ("frest", JVal.null) ∈ out.meta ∧
      ("points", JVal.num N) ∈ out.meta ∧
      ("frames", JVal.num files.length) ∈ out.meta ∧
      ("fps", JVal.num fps) ∈ out.meta ∧
      out.frest = none ∧
      "frest.bin" ∉ writtenFiles out ∧
      "meta.json" ∈ writtenFiles out := by
  cases hs : sortFrames files with
  | nil =>
    exfalso
    apply hne
    have hlen := (sortFrames_perm files).length_eq
    rw [hs] at hlen
    exact List.length_eq_zero.mp hlen.symm
  | cons f0 rest =>
    rw [hs, List.headD_cons] at hnf
    have hmemT : ∀ f ∈ f0 :: rest, f ∈ files := by
      intro f hf
      refine mem_sortFrames.mp ?_
      rw [hs]; exact hf
    have hmem0 : f0 ∈ files := hmemT f0 (by simp)
    have hlenEq : (f0 :: rest).length = files.length := by
      have hlen := (sortFrames_perm files).length_eq
      rw [hs] at hlen
      exact hlen
    have hbase := loadFrame_ok f0 (hok f0 hmem0)
    have hn : (loadedOf f0.2).pos.length = N := by
      simp [loadedOf, posOf, hcnt f0 hmem0]
    have hbh : (loadedOf f0.2).frest.isSome = false := by
      simp [loadedOf, frestOptOf, hnf]
    have hcnt'' : ∀ f ∈ f0 :: rest,
        f.2.rows.length = (loadedOf f0.2).pos.length := by
      intro f hf
      rw [hn]
      exact hcnt f (hmemT f hf)
    have hloop := packLoop_ok (loadedOf f0.2).pos.length (loadedOf f0.2).pos
      false (f0 :: rest) (fun f hf => hok f (hmemT f hf)) hcnt''
      (by intro hb; simp at hb)
    have hmain : mainPack fps files = .ok
        { pos0 := (loadedOf f0.2).pos
          delta := ((f0 :: rest).map (fun f =>
            slabOfLoaded (loadedOf f0.2).pos false
              (loadedOf f.2))).map Slab.delta
          rgba := ((f0 :: rest).map (fun f =>
            slabOfLoaded (loadedOf f0.2).pos false
              (loadedOf f.2))).map Slab.rgba
          scaleArr := ((f0 :: rest).map (fun f =>
            slabOfLoaded (loadedOf f0.2).pos false
              (loadedOf f.2))).map Slab.scale4
          frest := none
          meta := metaOf (loadedOf f0.2).pos.length (f0 :: rest).length fps
            false } := by
      simp only [mainPack, hs, hbase, hbh, hloop]
      simp
    refine ⟨_, hmain, ?_, ?_, ?_, ?_, ?_, ?_, ?_, ?_⟩
    · dsimp only
      rw [hn, hlenEq]
    · dsimp only
      simp [metaOf]
    · dsimp only
      simp [metaOf, hn]
    · dsimp only
      simp [metaOf, hlenEq]
    · dsimp only
      simp [metaOf]
    · rfl
    · simp [writtenFiles]
    · simp [writtenFiles]

/-- C8 amended witness: the theorem applied to a concrete one-frame,
one-point sequence without `f_rest` fields. -/
theorem c8_manifest_frest_null_witness :
    ∃ out, mainPack 7 [frameC] = .ok out ∧
      out.meta = metaOf 1 [frameC].length 7 false ∧
      ("frest", JVal.null) ∈ out.meta ∧
      ("points", JVal.num 1) ∈ out.meta ∧
      ("frames", JVal.num [frameC].length) ∈ out.meta ∧
      ("fps", JVal.num 7) ∈ out.meta ∧
      out.frest = none ∧
      "frest.bin" ∉ writtenFiles out ∧
      "meta.json" ∈ writtenFiles out :=
  c8_manifest_frest_null 7 [frameC] 1 (by simp) (by decide) (by decide)
    (by rw [sortFrames_singleton, List.headD_cons]; decide)
